import Mathlib

/-!
# Verification of the Grist custom-widget plugin API (grist-plugin-api.ts)

This development gives a shallow embedding, in Lean, of the core of
`app/plugin/grist-plugin-api.ts`:

* the mapping-projection function `mapColumnNames`;
* the single-flight mapping cache `getMappingsIfChanged` (as a small
  event-step machine over the module-level state `_mappingsCache` /
  `_activeRefreshReq`);
* the `ready()` handshake (as an action trace mirroring the order of the
  synchronous and asynchronous steps of the function body);
* the `onRecord` message handler body;
* the `JSON.parse(JSON.stringify(_))` deep copy performed on the cached
  mapping (as a heap-identity model, so that aliasing and mutation are
  expressible).

JavaScript records are modelled as association lists of string keys paired
with a `JsValue`; property read on a missing key yields `undefined`,
property write updates an existing key in place and otherwise appends, as
in JavaScript object semantics (widget records never carry duplicate keys).
-/

namespace Grist

/-- The JavaScript values the plugin api moves around. Cell contents are
opaque to the projection code; this restricted value type is enough to
express every branch the source takes (truthiness, arrays, functions). -/
inductive JsValue where
  | nullv
  | undef
  | boolv (b : Bool)
  | numv (n : Int)
  | strv (s : String)
  | arrv (elems : List JsValue)
  | funcv
deriving Repr

/-- A JavaScript object, as an insertion-ordered association list. -/
abbrev JRec := List (String × JsValue)

/-- Property read, `obj[key]`: first matching key, `undefined` if absent. -/
def getField : JRec → String → JsValue
  | [], _ => .undef
  | (k, v) :: rest, key => if k == key then v else getField rest key

/-- Property write, `obj[key] = val`: updates an existing key in place
(keeping its position), otherwise appends the new key at the end. -/
def setField : JRec → String → JsValue → JRec
  | [], key, val => [(key, val)]
  | (k, v) :: rest, key, val =>
      if k == key then (k, val) :: rest else (k, v) :: setField rest key val

/-- `delete obj[key]`. -/
def deleteField (r : JRec) (key : String) : JRec :=
  r.filter (fun kv => kv.1 ≠ key)

/-- `key in obj` (as used to distinguish update from insert). -/
def hasKey (r : JRec) (key : String) : Bool :=
  r.any (fun kv => kv.1 == key)

/-- JavaScript truthiness of a `JsValue` (`Boolean(v)`). -/
def truthy : JsValue → Bool
  | .nullv => false
  | .undef => false
  | .boolv b => b
  | .numv n => n != 0
  | .strv s => s != ""
  | .arrv _ => true
  | .funcv => true

/-! ## Column declarations and mappings

`ColumnsToMap` (from `CustomSectionAPI`) is an array whose entries are
either a bare string (a required column) or an object `{name, optional?}`.
`WidgetColumnMap` maps each widget column name to a host column id
(a string), a series of host column ids (an array of strings), or `null`. -/

/-- One entry of the `columns` declaration passed to `ready()`:
a bare string, or an object carrying a name and an `optional` flag. -/
inductive ColSpec where
  | bare (name : String)
  | obj (name : String) (optional : Bool)
deriving Repr, DecidableEq

abbrev ColumnsToMap := List ColSpec

/-- A value of the `WidgetColumnMap` supplied by the host for one widget
column: a single host column id, a series of host column ids, or `null`. -/
inductive MapVal where
  | str (s : String)
  | arr (cols : List String)
  | nullv
deriving Repr, DecidableEq

/-- The host-supplied mapping, an object keyed by widget column name
(insertion ordered, unique keys). -/
abbrev WidgetColumnMap := List (String × MapVal)

/-- Keys of a mapping, in order. -/
def mapKeys (m : WidgetColumnMap) : List String := m.map Prod.fst

/-- `isOptional(col)` from the body of `mapColumnNames`: a column counts as
optional when it does not occur as a bare string in the declaration (bare
strings are required) and some object entry of the declaration has this
name with a truthy `optional` flag. -/
def isOptional (columns : ColumnsToMap) (col : String) : Bool :=
  !(columns.any fun c => match c with
      | .bare n => n == col
      | .obj _ _ => false)
  && (columns.any fun c => match c with
      | .bare _ => false
      | .obj n opt => n == col && opt)

/-! ## The projection transformations -/

/-- One transformation pushed onto the `transformations` array of
`mapColumnNames`: the initial id copy, a series copy
(`to[widgetCol] = gristCol.map(col => from[col])`), or a direct copy
(`to[widgetCol] = from[gristCol]`). -/
inductive Transform where
  | copyId
  | series (w : String) (cols : List String)
  | direct (w : String) (g : String)
deriving Repr, DecidableEq

/-- The output field a transformation writes. -/
def Transform.target : Transform → String
  | .copyId => "id"
  | .series w _ => w
  | .direct w _ => w

/-- The value a transformation writes, read from the source record. -/
def Transform.value (src : JRec) : Transform → JsValue
  | .copyId => getField src "id"
  | .series _ cols => .arrv (cols.map (getField src))
  | .direct _ g => getField src g

/-- Run one transformation: `tran(rec, obj)` mutates `obj` by a single
property assignment. -/
def applyTransform (src dst : JRec) : Transform → JRec
  | .copyId => setField dst "id" (getField src "id")
  | .series w cols => setField dst w (.arrv (cols.map (getField src)))
  | .direct w g => setField dst w (getField src g)

theorem applyTransform_eq_set (src dst : JRec) (t : Transform) :
    applyTransform src dst t = setField dst t.target (t.value src) := by
  cases t <;> rfl

/-- The `if`-chain of the loop body of `mapColumnNames`, for one mapping
entry `(widgetCol, gristCol)`:
`none` means the whole call returns `null` (required column not
configured), `some none` means the entry is skipped (optional), and
`some (some t)` pushes transformation `t`. -/
def entryTransform (columns : ColumnsToMap) (w : String) : MapVal → Option (Option Transform)
  | .arr cols =>
      if cols.length ≠ 0 then some (some (.series w cols))
      else if isOptional columns w then some none else none
  | .str s =>
      if s ≠ "" then some (some (.direct w s))
      else if isOptional columns w then some none else none
  | .nullv =>
      if isOptional columns w then some none else none

/-- The `for (const widgetCol in options.mappings)` loop: walk the mapping
entries in order, collecting transformations; `none` when some required
column was not configured. -/
def buildTransforms (columns : ColumnsToMap) : WidgetColumnMap → Option (List Transform)
  | [] => some []
  | (w, v) :: rest =>
      match entryTransform columns w v with
      | none => none
      | some none => buildTransforms columns rest
      | some (some t) => (buildTransforms columns rest).map (t :: ·)

/-- `convert`: `transformations.reduce((obj, tran) => { tran(rec, obj); return obj; }, {})`. -/
def convert (ts : List Transform) (src : JRec) : JRec :=
  ts.foldl (fun dst t => applyTransform src dst t) []

/-- The data argument of `mapColumnNames`: a whole table (an array of
records) or a single record. -/
inductive JsData where
  | single (r : JRec)
  | table (rows : List JRec)
deriving Repr

/-- `Array.isArray(data) && data.length === 0`. -/
def isEmptyTable : JsData → Bool
  | .table [] => true
  | _ => false

/-- Apply the per-record conversion to the whole argument:
`Array.isArray(data) ? data.map(convert) : convert(data)`. -/
def mapData (ts : List Transform) : JsData → JsData
  | .single r => .single (convert ts r)
  | .table rows => .table (rows.map (convert ts))

/-- `mapColumnNames(data, options)` from `grist-plugin-api.ts`. `columns`
is `options.columns` (`undefined` ↦ `none`) and `mappings` is
`options.mappings` (`undefined`/`null` ↦ `none`, both falsy). The result
`none` is JavaScript `null`. The checks appear in source order: no column
configuration requested, no mapping received, empty table, then the
mapping loop and the record conversion. -/
def mapColumnNames (data : JsData) (columns : Option ColumnsToMap)
    (mappings : Option WidgetColumnMap) : Option JsData :=
  match columns with
  | none => some data
  | some cols =>
    match mappings with
    | none => none
    | some maps =>
      if isEmptyTable data then some data
      else
        match buildTransforms cols maps with
        | none => none
        | some ts => some (mapData (Transform.copyId :: ts) data)

example :
    mapColumnNames (.single [("id", .numv 1), ("c1", .strv "x"), ("c2", .strv "y")])
      (some [.obj "tags" false]) (some [("tags", .arr ["c1", "c2"])])
    = some (.single [("id", .numv 1), ("tags", .arrv [.strv "x", .strv "y"])]) := rfl

example :
    mapColumnNames (.single [("id", .numv 1), ("c1", .strv "x")])
      (some [.bare "A", .obj "B" true]) (some [("A", .str "c1"), ("B", .nullv)])
    = some (.single [("id", .numv 1), ("A", .strv "x")]) := rfl

example :
    mapColumnNames (.single [("id", .numv 1), ("c1", .strv "x")])
      (some [.bare "A"]) (some [("A", .nullv)]) = none := rfl

/-! ## Association-list lemmas -/

theorem getField_setField_same (r : JRec) (k : String) (v : JsValue) :
    getField (setField r k v) k = v := by
  induction r with
  | nil => simp [setField, getField]
  | cons kv rest ih =>
    obtain ⟨k1, v1⟩ := kv
    by_cases h : k1 = k
    · simp [setField, getField, h]
    · simp [setField, getField, h, ih]

theorem getField_setField_ne (r : JRec) (k k' : String) (v : JsValue)
    (h : k' ≠ k) : getField (setField r k v) k' = getField r k' := by
  have hkk : ¬(k = k') := fun hh => h hh.symm
  induction r with
  | nil => simp [setField, getField, hkk]
  | cons kv rest ih =>
    obtain ⟨k1, v1⟩ := kv
    by_cases hk : k1 = k
    · subst hk
      simp [setField, getField, hkk]
    · simp [setField, getField, hk, ih]

/-! ## Lemmas about the transformation pipeline -/

theorem foldl_getField_of_target_ne (src : JRec) (ts : List Transform)
    (acc : JRec) (w : String) (h : ∀ t ∈ ts, t.target ≠ w) :
    getField (ts.foldl (fun dst t => applyTransform src dst t) acc) w
      = getField acc w := by
  induction ts generalizing acc with
  | nil => rfl
  | cons t rest ih =>
    simp only [List.foldl_cons]
    rw [ih _ (fun t' ht' => h t' (List.mem_cons_of_mem _ ht')),
      applyTransform_eq_set,
      getField_setField_ne _ _ _ _ (fun hh => h t (List.mem_cons_self _ _) hh.symm)]

theorem entryTransform_target (cols : ColumnsToMap) (w : String) (v : MapVal)
    (t : Transform) (h : entryTransform cols w v = some (some t)) :
    t.target = w := by
  cases v with
  | str s =>
    simp only [entryTransform] at h
    split at h
    · injection h with h1
      injection h1 with h2
      rw [← h2]; rfl
    · split at h <;> simp at h
  | arr cs =>
    simp only [entryTransform] at h
    split at h
    · injection h with h1
      injection h1 with h2
      rw [← h2]; rfl
    · split at h <;> simp at h
  | nullv =>
    simp only [entryTransform] at h
    split at h <;> simp at h

theorem buildTransforms_append (cols : ColumnsToMap) (m1 m2 : WidgetColumnMap) :
    buildTransforms cols (m1 ++ m2)
      = (buildTransforms cols m1).bind
          (fun t1 => (buildTransforms cols m2).map (t1 ++ ·)) := by
  induction m1 with
  | nil =>
    simp only [List.nil_append, buildTransforms, Option.bind_eq_bind,
      Option.some_bind]
    cases buildTransforms cols m2 <;> simp
  | cons e rest ih =>
    obtain ⟨w, v⟩ := e
    simp only [List.cons_append, buildTransforms]
    cases entryTransform cols w v with
    | none => rfl
    | some o =>
      cases o with
      | none => exact ih
      | some t =>
        show Option.map (t :: ·) (buildTransforms cols (rest ++ m2)) = _
        rw [ih]
        cases buildTransforms cols rest with
        | none => rfl
        | some t1 =>
          cases buildTransforms cols m2 with
          | none => rfl
          | some t2 => simp

theorem buildTransforms_target_mem (cols : ColumnsToMap) (maps : WidgetColumnMap)
    (ts : List Transform) (hb : buildTransforms cols maps = some ts) :
    ∀ t ∈ ts, t.target ∈ mapKeys maps := by
  induction maps generalizing ts with
  | nil =>
    simp only [buildTransforms, Option.some_inj] at hb
    subst hb
    intro t ht
    cases ht
  | cons e rest ih =>
    obtain ⟨w, v⟩ := e
    simp only [buildTransforms] at hb
    cases he : entryTransform cols w v with
    | none => rw [he] at hb; cases hb
    | some o =>
      rw [he] at hb
      cases o with
      | none =>
        intro t ht
        exact List.mem_cons_of_mem _ (ih ts hb t ht)
      | some t0 =>
        cases hr : buildTransforms cols rest with
        | none => rw [hr] at hb; cases hb
        | some ts0 =>
          rw [hr] at hb
          simp only [Option.map_some', Option.some_inj] at hb
          subst hb
          intro t ht
          cases ht with
          | head =>
            have := entryTransform_target cols w v t0 he
            simp [mapKeys, this]
          | tail _ ht' =>
            exact List.mem_cons_of_mem _ (ih ts0 hr t ht')

theorem buildTransforms_none_of_entry (cols : ColumnsToMap)
    (maps : WidgetColumnMap) (w : String) (v : MapVal)
    (hmem : (w, v) ∈ maps) (he : entryTransform cols w v = none) :
    buildTransforms cols maps = none := by
  induction maps with
  | nil => cases hmem
  | cons e rest ih =>
    obtain ⟨w1, v1⟩ := e
    rcases List.mem_cons.mp hmem with hh | ht
    · injection hh with h1 h2
      subst h1; subst h2
      simp [buildTransforms, he]
    · simp only [buildTransforms]
      cases entryTransform cols w1 v1 with
      | none => rfl
      | some o =>
        cases o with
        | none => exact ih ht
        | some t => rw [ih ht]; rfl

/-- Erasing a key from a mapping object (used to compare an empty-series
entry with the entry being absent altogether). -/
def eraseKey : WidgetColumnMap → String → WidgetColumnMap
  | [], _ => []
  | (k, v) :: rest, key => if k == key then rest else (k, v) :: eraseKey rest key

theorem eraseKey_append (m1 m2 : WidgetColumnMap) (w : String) (v : MapVal)
    (h : w ∉ mapKeys m1) :
    eraseKey (m1 ++ (w, v) :: m2) w = m1 ++ m2 := by
  induction m1 with
  | nil => simp [eraseKey]
  | cons e rest ih =>
    obtain ⟨k1, v1⟩ := e
    have hk : k1 ≠ w := by
      intro hh
      exact h (by simp [mapKeys, hh])
    have hrest : w ∉ mapKeys rest := fun hh => h (List.mem_cons_of_mem _ hh)
    simp [eraseKey, hk, ih hrest]

/-! ## Shape lemmas for `mapColumnNames` -/

theorem mapColumnNames_single_inv (cols : ColumnsToMap) (maps : WidgetColumnMap)
    (src out : JRec)
    (hres : mapColumnNames (.single src) (some cols) (some maps)
      = some (.single out)) :
    ∃ ts, buildTransforms cols maps = some ts
      ∧ out = convert (Transform.copyId :: ts) src := by
  cases hb : buildTransforms cols maps with
  | none => simp [mapColumnNames, isEmptyTable, hb] at hres
  | some ts =>
    refine ⟨ts, rfl, ?_⟩
    simp [mapColumnNames, isEmptyTable, hb, mapData] at hres
    exact hres.symm

theorem mapColumnNames_table_inv (cols : ColumnsToMap) (maps : WidgetColumnMap)
    (rows outRows : List JRec)
    (hres : mapColumnNames (.table rows) (some cols) (some maps)
      = some (.table outRows)) :
    (rows = [] ∧ outRows = []) ∨
      ∃ ts, buildTransforms cols maps = some ts
        ∧ outRows = rows.map (convert (Transform.copyId :: ts)) := by
  cases rows with
  | nil =>
    left
    refine ⟨rfl, ?_⟩
    simp [mapColumnNames, isEmptyTable] at hres
    exact hres
  | cons r rs =>
    right
    cases hb : buildTransforms cols maps with
    | none => simp [mapColumnNames, isEmptyTable, hb] at hres
    | some ts =>
      refine ⟨ts, rfl, ?_⟩
      simp [mapColumnNames, isEmptyTable, hb, mapData] at hres
      exact hres.symm

/-- Core of the series-column argument: if the mapping holds a non-empty
series entry `(w, cs)` and the transformation list was built from it, the
converted record carries, under `w`, the ordered list of the named host
columns' values from the source record. -/
theorem convert_series_getField (cols : ColumnsToMap) (maps : WidgetColumnMap)
    (w : String) (cs : List String) (ts : List Transform) (src : JRec)
    (hnd : (mapKeys maps).Nodup)
    (hmem : (w, MapVal.arr cs) ∈ maps)
    (hne : cs ≠ [])
    (hb : buildTransforms cols maps = some ts) :
    getField (convert (Transform.copyId :: ts) src) w
      = .arrv (cs.map (getField src)) := by
  obtain ⟨m1, m2, hsplit⟩ := List.append_of_mem hmem
  subst hsplit
  have hnd' : (mapKeys m1 ++ w :: mapKeys m2).Nodup := by
    simpa [mapKeys] using hnd
  have hw2 : w ∉ mapKeys m2 :=
    (List.nodup_cons.mp hnd'.of_append_right).1
  have hlen : cs.length ≠ 0 := fun h0 => hne (List.length_eq_zero.mp h0)
  have hentry : entryTransform cols w (MapVal.arr cs)
      = some (some (.series w cs)) := by
    simp [entryTransform, hlen]
  have hcons : buildTransforms cols ((w, MapVal.arr cs) :: m2)
      = (buildTransforms cols m2).map (Transform.series w cs :: ·) := by
    simp only [buildTransforms, hentry]
  rw [buildTransforms_append, hcons] at hb
  cases h1 : buildTransforms cols m1 with
  | none => rw [h1] at hb; cases hb
  | some t1 =>
    rw [h1] at hb
    cases h2 : buildTransforms cols m2 with
    | none => rw [h2] at hb; cases hb
    | some t2 =>
      rw [h2] at hb
      simp only [Option.map_some', Option.some_bind, Option.some_inj] at hb
      subst hb
      have hsplit2 : Transform.copyId :: (t1 ++ Transform.series w cs :: t2)
          = ((Transform.copyId :: t1) ++ [Transform.series w cs]) ++ t2 := by
        simp
      simp only [convert]
      rw [hsplit2, List.foldl_append, List.foldl_append]
      rw [foldl_getField_of_target_ne]
      · simp only [List.foldl_cons, List.foldl_nil, applyTransform_eq_set,
          Transform.target, Transform.value]
        rw [getField_setField_same]
      · intro t ht hh
        have hmem2 := buildTransforms_target_mem cols m2 t2 h2 t ht
        rw [hh] at hmem2
        exact hw2 hmem2

/-! ## C2: required-column totality (code bug)

The loop of `mapColumnNames` ranges over the keys of `options.mappings`,
not over the declared columns. A required declared column that is absent
from the mapping object altogether is therefore never checked, and the
function returns a partially-filled record, contradicting its own doc
comment ("Returns null if not all required columns were mapped"). -/

/-- C2 (code bug evaluation): with declaration `["A"]` (so `"A"` is
required, not optional), mapping `{}` and data `{id: 1}`, `mapColumnNames`
returns the record `{id: 1}` — which lacks the required column `"A"` —
rather than `null` as the claim (and the function's doc comment) demand. -/
theorem C2_required_absent_evaluation :
    mapColumnNames (.single [("id", .numv 1)]) (some [.bare "A"]) (some [])
        = some (.single [("id", .numv 1)])
      ∧ isOptional [.bare "A"] "A" = false
      ∧ getField [("id", JsValue.numv 1)] "A" = .undef :=
  ⟨rfl, rfl, rfl⟩

/-! ## C8: empty-table short-circuit -/

/-- C8: for every declaration (present or absent) and every mapping object,
projecting an empty table returns the empty table unchanged, never `null`. -/
theorem C8_empty_table_short_circuit (columns : Option ColumnsToMap)
    (maps : WidgetColumnMap) :
    mapColumnNames (.table []) columns (some maps) = some (.table []) := by
  cases columns <;> rfl

/-! ## C9: series-column semantics -/

/-- C9: when the mapping assigns a non-empty sequence `cs` of host columns
to the logical column `w`, every record produced by `mapColumnNames`
carries, under `w`, the ordered list of the named host columns' values for
the corresponding source row — stated for the single-record shape and for
the row-by-row table shape. -/
theorem C9_series_column_semantics (cols : ColumnsToMap) (maps : WidgetColumnMap)
    (w : String) (cs : List String)
    (hnd : (mapKeys maps).Nodup) (hmem : (w, MapVal.arr cs) ∈ maps)
    (hne : cs ≠ []) :
    (∀ src out,
        mapColumnNames (.single src) (some cols) (some maps)
            = some (.single out) →
        getField out w = .arrv (cs.map (getField src))) ∧
    (∀ rows outRows,
        mapColumnNames (.table rows) (some cols) (some maps)
            = some (.table outRows) →
        List.Forall₂ (fun src out => getField out w = .arrv (cs.map (getField src)))
          rows outRows) := by
  constructor
  · intro src out hres
    obtain ⟨ts, hb, hout⟩ := mapColumnNames_single_inv cols maps src out hres
    rw [hout]
    exact convert_series_getField cols maps w cs ts src hnd hmem hne hb
  · intro rows outRows hres
    rcases mapColumnNames_table_inv cols maps rows outRows hres with
      ⟨hr, ho⟩ | ⟨ts, hb, hout⟩
    · rw [hr, ho]
      exact List.Forall₂.nil
    · rw [hout]
      refine List.forall₂_map_right_iff.mpr (List.forall₂_same.mpr ?_)
      intro r _
      exact convert_series_getField cols maps w cs ts r hnd hmem hne hb

def exSrc9 : JRec := [("id", .numv 1), ("c1", .strv "x"), ("c2", .strv "y")]

def exOut9 : JRec := [("id", .numv 1), ("tags", .arrv [.strv "x", .strv "y"])]

/-- Witness for C9, at the concrete instance from the specification:
declaration `[{name: "tags"}]`, mapping `{tags: ["c1","c2"]}`, row
`{id:1, c1:"x", c2:"y"}` projects to `{id:1, tags:["x","y"]}`. -/
theorem C9_series_column_semantics_witness :
    mapColumnNames (.single exSrc9) (some [ColSpec.obj "tags" false])
        (some [("tags", MapVal.arr ["c1", "c2"])]) = some (.single exOut9)
    ∧ getField exOut9 "tags" = .arrv [.strv "x", .strv "y"] :=
  ⟨rfl,
    (C9_series_column_semantics [ColSpec.obj "tags" false]
        [("tags", MapVal.arr ["c1", "c2"])] "tags" ["c1", "c2"]
        (by decide) (by decide) (by decide)).1 exSrc9 exOut9 rfl⟩

/-! ## C10: empty-sequence mapping entries -/

/-- C10: a mapping entry carrying the empty sequence `[]` is treated as an
unconfigured column: when the column is optional the whole projection
coincides with the projection under the mapping with that entry erased,
and when the column is required (and the data non-empty) the projection
returns `null`. -/
theorem C10_empty_series_entry (data : JsData) (cols : ColumnsToMap)
    (maps : WidgetColumnMap) (w : String)
    (hnd : (mapKeys maps).Nodup) (hmem : (w, MapVal.arr []) ∈ maps) :
    (isOptional cols w = true →
      mapColumnNames data (some cols) (some maps)
        = mapColumnNames data (some cols) (some (eraseKey maps w))) ∧
    (isOptional cols w = false → isEmptyTable data = false →
      mapColumnNames data (some cols) (some maps) = none) := by
  constructor
  · intro hopt
    obtain ⟨m1, m2, hsplit⟩ := List.append_of_mem hmem
    subst hsplit
    have hnd' : (mapKeys m1 ++ w :: mapKeys m2).Nodup := by
      simpa [mapKeys] using hnd
    have hw1 : w ∉ mapKeys m1 := fun hmem1 =>
      List.disjoint_of_nodup_append hnd' hmem1 (List.mem_cons_self _ _)
    have herase : eraseKey (m1 ++ (w, MapVal.arr []) :: m2) w = m1 ++ m2 :=
      eraseKey_append m1 m2 w _ hw1
    have hentry : entryTransform cols w (MapVal.arr []) = some none := by
      simp [entryTransform, hopt]
    have hbeq : buildTransforms cols (m1 ++ (w, MapVal.arr []) :: m2)
        = buildTransforms cols (m1 ++ m2) := by
      rw [buildTransforms_append, buildTransforms_append]
      have hskip : buildTransforms cols ((w, MapVal.arr []) :: m2)
          = buildTransforms cols m2 := by
        simp only [buildTransforms, hentry]
      rw [hskip]
    rw [herase]
    simp only [mapColumnNames, hbeq]
  · intro hopt hdata
    have hentry : entryTransform cols w (MapVal.arr []) = none := by
      simp [entryTransform, hopt]
    have hb := buildTransforms_none_of_entry cols maps w _ hmem hentry
    simp [mapColumnNames, hdata, hb]

/-- Witness for C10: the optional column `"B"` mapped to `[]` is treated as
if absent from the mapping, and the required column `"C"` mapped to `[]`
makes the whole projection `null`. -/
theorem C10_empty_series_entry_witness :
    mapColumnNames (.single [("id", .numv 1), ("c1", .strv "x")])
        (some [ColSpec.bare "A", ColSpec.obj "B" true])
        (some [("A", MapVal.str "c1"), ("B", MapVal.arr [])])
      = mapColumnNames (.single [("id", .numv 1), ("c1", .strv "x")])
        (some [ColSpec.bare "A", ColSpec.obj "B" true])
        (some (eraseKey [("A", MapVal.str "c1"), ("B", MapVal.arr [])] "B"))
    ∧ mapColumnNames (.single [("id", .numv 1)])
        (some [ColSpec.bare "C"]) (some [("C", MapVal.arr [])]) = none :=
  ⟨(C10_empty_series_entry (.single [("id", .numv 1), ("c1", .strv "x")])
      [ColSpec.bare "A", ColSpec.obj "B" true]
      [("A", MapVal.str "c1"), ("B", MapVal.arr [])] "B"
      (by decide) (by decide)).1 rfl,
   (C10_empty_series_entry (.single [("id", .numv 1)]) [ColSpec.bare "C"]
      [("C", MapVal.arr [])] "C" (by decide) (by decide)).2 rfl rfl⟩

/-! ## The mapping cache: single-flight model of `getMappingsIfChanged`

`getMappingsIfChanged(data)` runs over the module-level state
`_mappingsCache` (`undefined` before any fetch, afterwards the last value
resolved by `sectionApi.mappings()`, which is a mapping object or `null`)
and `_activeRefreshReq` (the in-flight refresh promise, or `null`).

In the single-threaded event loop the synchronous prefix of a call — the
staleness test `data.mappingsChange || uninitialized`, the
`!_activeRefreshReq` test and, when it starts a fetch, the assignment of
the new promise — runs atomically: there is no suspension point before
`await _activeRefreshReq`. When the host's `mappings()` promise settles,
its `.then` handler (storing the result in `_mappingsCache`), its
`.finally` handler (clearing `_activeRefreshReq`) and the continuations of
every waiting caller all run before any later inbound message event. The
model therefore has two atomic events: a caller entering the function, and
the settlement (fulfilment or rejection) of the in-flight `mappings()`
request. Each settled caller's return value — or the rejection it
observes — is appended to `results`. -/

/-- `_mappingsCache`: `none` is `undefined` (never fetched), `some none`
is `null`, and `some (some m)` is a known mapping object. -/
abbrev MappingsCache := Option (Option WidgetColumnMap)

/-- `JSON.parse(JSON.stringify(m))` on a mapping object, at the level of
pure values: a structural rebuild. (Heap independence of the copy is
treated separately, in the heap-identity model below.) -/
def jsonClone (m : WidgetColumnMap) : WidgetColumnMap :=
  m.map (fun kv => (kv.1,
    match kv.2 with
    | .str s => MapVal.str s
    | .arr l => MapVal.arr (l.map (fun s => s))
    | .nullv => MapVal.nullv))

theorem jsonClone_eq (m : WidgetColumnMap) : jsonClone m = m := by
  induction m with
  | nil => rfl
  | cons kv rest ih =>
    obtain ⟨k, v⟩ := kv
    cases v <;> simp [jsonClone] at ih ⊢ <;> exact ih

/-- `return _mappingsCache ? JSON.parse(JSON.stringify(_mappingsCache)) : null`:
`undefined` and `null` are falsy, any object (even `{}`) is truthy. -/
def returnedMappings (c : MappingsCache) : Option WidgetColumnMap :=
  match c with
  | some (some m) => some (jsonClone m)
  | _ => none

theorem returnedMappings_some (m : Option WidgetColumnMap) :
    returnedMappings (some m) = m := by
  cases m with
  | none => rfl
  | some mm => simp [returnedMappings, jsonClone_eq]

/-- The module-level cache state, together with the observables of the
model: `fetchCount` counts the calls made to the host's `mappings()`
endpoint, `settleCount` their settlements, `waiters` the callers suspended
on `await _activeRefreshReq`, and `results` each settled caller's outcome
(`Except.error` models the rejection a waiter observes when the fetch
fails). -/
structure CacheState where
  mappingsCache : MappingsCache
  activeRefreshReq : Bool
  waiters : List Nat
  fetchCount : Nat
  settleCount : Nat
  results : List (Nat × Except Unit (Option WidgetColumnMap))

/-- Initial module state: `_mappingsCache === undefined`,
`_activeRefreshReq === null`. -/
def cacheInit : CacheState :=
  { mappingsCache := none, activeRefreshReq := false, waiters := [],
    fetchCount := 0, settleCount := 0, results := [] }

/-- An atomic event: a caller entering `getMappingsIfChanged` (with the
`mappingsChange` flag of its message), or the settlement of the in-flight
`mappings()` request. -/
inductive CacheEv where
  | call (caller : Nat) (mappingsChange : Bool)
  | settle (outcome : Except Unit (Option WidgetColumnMap))

/-- One step of `getMappingsIfChanged`, following the source line by line:
a caller that needs a refresh starts a fetch only when none is active
(incrementing `fetchCount`) and otherwise joins the waiters of the
existing one; a caller that needs none returns the (copied) cache at once;
a settlement stores the fulfilled value, clears `_activeRefreshReq` in all
cases, and resumes every waiter, which then returns the copied cache (or
observes the rejection). -/
def cacheStep (s : CacheState) : CacheEv → CacheState
  | .call i mc =>
    let uninitialized := s.mappingsCache.isNone
    if mc || uninitialized then
      if !s.activeRefreshReq then
        { s with
            activeRefreshReq := true
            fetchCount := s.fetchCount + 1
            waiters := s.waiters ++ [i] }
      else
        { s with waiters := s.waiters ++ [i] }
    else
      { s with
          results := s.results ++ [(i, .ok (returnedMappings s.mappingsCache))] }
  | .settle outcome =>
    if s.activeRefreshReq then
      match outcome with
      | .ok m =>
        { s with
            mappingsCache := some m
            activeRefreshReq := false
            waiters := []
            settleCount := s.settleCount + 1
            results := s.results
              ++ s.waiters.map (fun i => (i, .ok (returnedMappings (some m)))) }
      | .error e =>
        { s with
            activeRefreshReq := false
            waiters := []
            settleCount := s.settleCount + 1
            results := s.results ++ s.waiters.map (fun i => (i, .error e)) }
    else s

def cacheRun (s : CacheState) (evs : List CacheEv) : CacheState :=
  evs.foldl cacheStep s

/-- Number of mapping-refresh requests currently in flight. -/
def inFlight (s : CacheState) : Nat := s.fetchCount - s.settleCount

theorem cacheRun_calls_joined (calls : List (Nat × Bool)) (s : CacheState)
    (hc : s.mappingsCache = none) (ha : s.activeRefreshReq = true) :
    cacheRun s (calls.map (fun c => CacheEv.call c.1 c.2))
      = { s with waiters := s.waiters ++ calls.map Prod.fst } := by
  induction calls generalizing s with
  | nil => simp [cacheRun]
  | cons c rest ih =>
    obtain ⟨i, mc⟩ := c
    have hstep : cacheStep s (.call i mc) = { s with waiters := s.waiters ++ [i] } := by
      simp [cacheStep, hc, ha]
    simp only [List.map_cons, cacheRun, List.foldl_cons]
    rw [hstep]
    have := ih { s with waiters := s.waiters ++ [i] } hc ha
    simp only [cacheRun] at this
    rw [this]
    simp

/-- The accounting invariant behind "at most one request in flight". -/
def flightInv (s : CacheState) : Prop :=
  s.fetchCount = s.settleCount + (if s.activeRefreshReq then 1 else 0)

theorem flightInv_step (s : CacheState) (ev : CacheEv) (h : flightInv s) :
    flightInv (cacheStep s ev) := by
  unfold flightInv at h ⊢
  cases ev with
  | call i mc =>
    simp only [cacheStep]
    split
    · cases ha : s.activeRefreshReq with
      | false => simp [ha] at h ⊢; omega
      | true => simp [ha] at h ⊢; omega
    · simpa using h
  | settle outcome =>
    simp only [cacheStep]
    by_cases ha : s.activeRefreshReq = true
    · cases outcome with
      | ok m => simp [ha] at h ⊢; omega
      | error e => simp [ha] at h ⊢; omega
    · simp [ha] at h ⊢; omega

theorem flightInv_run (evs : List CacheEv) (s : CacheState) (h : flightInv s) :
    flightInv (cacheRun s evs) := by
  induction evs generalizing s with
  | nil => exact h
  | cons e rest ih => exact ih _ (flightInv_step s e h)

/-! ## C1: single-flight refresh -/

/-- C1: starting from the never-populated cache, any two or more calls to
`getMappingsIfChanged` arriving before the first fetch settles cause
exactly one call to the host's `mappings()` operation; when that single
fetch resolves with `m`, every one of those callers receives exactly `m`
(via its deep copy); and along every event trace whatsoever, at most one
mapping-refresh request is in flight at any time. -/
theorem C1_single_flight (calls : List (Nat × Bool)) (hlen : 2 ≤ calls.length)
    (m : Option WidgetColumnMap) :
    (cacheRun cacheInit (calls.map (fun c => CacheEv.call c.1 c.2))).fetchCount = 1 ∧
    (cacheStep (cacheRun cacheInit (calls.map (fun c => CacheEv.call c.1 c.2)))
        (.settle (.ok m))).results
      = calls.map (fun c => (c.1, Except.ok m)) ∧
    ∀ evs : List CacheEv, inFlight (cacheRun cacheInit evs) ≤ 1 := by
  have hmain : ∀ c : Nat × Bool, ∀ rest : List (Nat × Bool),
      cacheRun cacheInit (((c :: rest) : List (Nat × Bool)).map
        (fun c => CacheEv.call c.1 c.2))
      = { cacheInit with
            activeRefreshReq := true
            fetchCount := 1
            waiters := (c :: rest).map Prod.fst } := by
    intro c rest
    obtain ⟨i, mc⟩ := c
    have hstep : cacheStep cacheInit (.call i mc)
        = { cacheInit with
              activeRefreshReq := true
              fetchCount := 1
              waiters := [i] } := by
      simp [cacheStep, cacheInit]
    simp only [List.map_cons, cacheRun, List.foldl_cons]
    rw [hstep]
    have := cacheRun_calls_joined rest
      { cacheInit with activeRefreshReq := true, fetchCount := 1, waiters := [i] }
      rfl rfl
    simp only [cacheRun] at this
    rw [this]
    simp
  cases calls with
  | nil => simp at hlen
  | cons c rest =>
    refine ⟨?_, ?_, ?_⟩
    · rw [hmain c rest]
    · rw [hmain c rest]
      simp [cacheStep, cacheInit, returnedMappings_some, List.map_map,
        Function.comp]
    · intro evs
      have h := flightInv_run evs cacheInit (by simp [flightInv, cacheInit])
      unfold flightInv at h
      unfold inFlight
      split at h <;> omega

/-- Witness for C1: two callers (the first flagged `mappingsChange`, the
second not — both need a refresh since the cache was never populated)
arriving before the fetch settles: one fetch, and both receive the
resolved mapping `{A: "c1"}`. -/
theorem C1_single_flight_witness :
    (cacheRun cacheInit ([(0, true), (1, false)].map
        (fun c => CacheEv.call c.1 c.2))).fetchCount = 1 ∧
    (cacheStep (cacheRun cacheInit ([(0, true), (1, false)].map
        (fun c => CacheEv.call c.1 c.2)))
        (.settle (.ok (some [("A", MapVal.str "c1")])))).results
      = [(0, Except.ok (some [("A", MapVal.str "c1")])),
         (1, Except.ok (some [("A", MapVal.str "c1")]))] :=
  ⟨(C1_single_flight [(0, true), (1, false)] (by decide)
      (some [("A", MapVal.str "c1")])).1,
   (C1_single_flight [(0, true), (1, false)] (by decide)
      (some [("A", MapVal.str "c1")])).2.1⟩

/-! ## C7: the deep copy, with heap identities

The non-null return path of `getMappingsIfChanged` (source line 111) is
`JSON.parse(JSON.stringify(_mappingsCache))`. A `WidgetColumnMap` value
has exactly two levels of mutable structure: the root object and the array
values of its series entries (strings and `null` are immutable
primitives). To talk about aliasing and mutation in a pure embedding, each
mutable node carries a heap address: two values can share mutable state
exactly when they share an address. `JSON.stringify` serializes reachable
content only, and `JSON.parse` re-materializes it in freshly allocated
nodes: same content, entirely fresh addresses. -/

/-- A field value of the cached mapping object, with array nodes carrying
their heap address. -/
inductive AVal where
  | str (s : String)
  | nullv
  | arr (addr : Nat) (elems : List String)
deriving Repr, DecidableEq

/-- A mapping object on the heap: the root object's address and its
fields. -/
structure AObj where
  addr : Nat
  fields : List (String × AVal)
deriving Repr, DecidableEq

/-- The mutable addresses reachable from the object: its own and those of
its array values. -/
def AObj.addrs (o : AObj) : List Nat :=
  o.addr :: o.fields.filterMap (fun kv =>
    match kv.2 with
    | .arr a _ => some a
    | _ => none)

/-- Forget addresses: the pure content of a heap field value. -/
def readVal : AVal → MapVal
  | .str s => .str s
  | .nullv => .nullv
  | .arr _ es => .arr es

/-- The pure `WidgetColumnMap` content of a heap value. -/
def AObj.readOut (o : AObj) : WidgetColumnMap :=
  o.fields.map (fun kv => (kv.1, readVal kv.2))

/-- A mutation a caller can perform on a mapping value it holds: set or
delete a field of the object at address `a`, or overwrite the elements of
the array at address `a` (covering `push`, index assignment, `splice`).
Applied to a heap value, it affects exactly the nodes carrying the
targeted address. -/
inductive HMut where
  | setF (a : Nat) (k : String) (v : AVal)
  | delF (a : Nat) (k : String)
  | setElems (a : Nat) (es : List String)

/-- The address a mutation targets. -/
def HMut.addr : HMut → Nat
  | .setF a _ _ => a
  | .delF a _ => a
  | .setElems a _ => a

/-- Property write on heap fields (same JavaScript semantics as
`setField`). -/
def setFieldA : List (String × AVal) → String → AVal → List (String × AVal)
  | [], key, val => [(key, val)]
  | (k, v) :: rest, key, val =>
      if k == key then (k, val) :: rest else (k, v) :: setFieldA rest key val

/-- Apply a mutation to a heap value. -/
def applyMut (o : AObj) : HMut → AObj
  | .setF a k v =>
      if o.addr = a then { o with fields := setFieldA o.fields k v } else o
  | .delF a k =>
      if o.addr = a then
        { o with fields := o.fields.filter (fun kv => kv.1 ≠ k) }
      else o
  | .setElems a es =>
      { o with
          fields := o.fields.map (fun kv =>
            match kv.2 with
            | AVal.arr a2 es0 =>
                if a2 = a then (kv.1, AVal.arr a2 es) else (kv.1, AVal.arr a2 es0)
            | v => (kv.1, v)) }

/-- Re-materialize the array nodes of serialized fields at fresh
addresses, numbering from `n`. -/
def renumberFields : List (String × AVal) → Nat → List (String × AVal)
  | [], _ => []
  | (k, AVal.arr _ es) :: rest, n => (k, AVal.arr n es) :: renumberFields rest (n + 1)
  | (k, v) :: rest, n => (k, v) :: renumberFields rest n

/-- Largest address in use by a heap value. -/
def AObj.maxAddr (o : AObj) : Nat := o.addrs.foldr max 0

/-- `JSON.parse(JSON.stringify(o))`: same readable content, all nodes
freshly allocated — root at `maxAddr + 1`, array nodes renumbered from
`maxAddr + 2`. -/
def jsonRoundTrip (o : AObj) : AObj :=
  { addr := o.maxAddr + 1, fields := renumberFields o.fields (o.maxAddr + 2) }

/-- The return expression of `getMappingsIfChanged` (source line 111) at
the heap level: a non-null cache value is returned as its JSON round trip,
an `undefined` or `null` cache as `null`. -/
def returnedMappingsHeap (cache : Option (Option AObj)) : Option AObj :=
  match cache with
  | some (some o) => some (jsonRoundTrip o)
  | _ => none

theorem le_foldr_max (l : List Nat) : ∀ a ∈ l, a ≤ l.foldr max 0 := by
  induction l with
  | nil => intro a ha; cases ha
  | cons x rest ih =>
    intro a ha
    rcases List.mem_cons.mp ha with rfl | hm
    · exact Nat.le_max_left _ _
    · exact le_trans (ih a hm) (Nat.le_max_right _ _)

theorem renumberFields_readOut (fs : List (String × AVal)) (n : Nat) :
    (renumberFields fs n).map (fun kv => (kv.1, readVal kv.2))
      = fs.map (fun kv => (kv.1, readVal kv.2)) := by
  induction fs generalizing n with
  | nil => rfl
  | cons kv rest ih =>
    obtain ⟨k, v⟩ := kv
    cases v with
    | arr a es =>
      simp only [renumberFields, List.map_cons, readVal] at ih ⊢
      exact congrArg _ (ih (n + 1))
    | str s =>
      simp only [renumberFields, List.map_cons, readVal] at ih ⊢
      exact congrArg _ (ih n)
    | nullv =>
      simp only [renumberFields, List.map_cons, readVal] at ih ⊢
      exact congrArg _ (ih n)

theorem renumberFields_addr_ge (fs : List (String × AVal)) (n : Nat) :
    ∀ k a es, (k, AVal.arr a es) ∈ renumberFields fs n → n ≤ a := by
  induction fs generalizing n with
  | nil => intro k a es h; cases h
  | cons kv rest ih =>
    obtain ⟨k0, v0⟩ := kv
    cases v0 with
    | arr a0 es0 =>
      intro k a es h
      rcases List.mem_cons.mp h with heq | hm
      · injection heq with h1 h2
        injection h2 with h3 h4
        omega
      · exact le_trans (Nat.le_succ n) (ih (n + 1) k a es hm)
    | str s0 =>
      intro k a es h
      rcases List.mem_cons.mp h with heq | hm
      · injection heq with h1 h2
        cases h2
      · exact ih n k a es hm
    | nullv =>
      intro k a es h
      rcases List.mem_cons.mp h with heq | hm
      · injection heq with h1 h2
        cases h2
      · exact ih n k a es hm

theorem jsonRoundTrip_addrs_gt (o : AObj) :
    ∀ a ∈ (jsonRoundTrip o).addrs, o.maxAddr < a := by
  intro a ha
  simp only [jsonRoundTrip, AObj.addrs] at ha
  rcases List.mem_cons.mp ha with rfl | hm
  · omega
  · obtain ⟨kv, hkv, hf⟩ := List.mem_filterMap.mp hm
    obtain ⟨k, v⟩ := kv
    cases v with
    | arr a2 es =>
      simp only at hf
      injection hf with h2
      subst h2
      have := renumberFields_addr_ge o.fields (o.maxAddr + 2) k a2 es hkv
      omega
    | str s => simp at hf
    | nullv => simp at hf

theorem mapElems_id (fs : List (String × AVal)) (a : Nat) (es : List String)
    (h : ∀ k a2 es2, (k, AVal.arr a2 es2) ∈ fs → a2 ≠ a) :
    fs.map (fun kv =>
      match kv.2 with
      | AVal.arr a2 es0 =>
          if a2 = a then (kv.1, AVal.arr a2 es) else (kv.1, AVal.arr a2 es0)
      | v => (kv.1, v)) = fs := by
  induction fs with
  | nil => rfl
  | cons kv rest ih =>
    obtain ⟨k, v⟩ := kv
    have hrest := ih (fun k' a' e' hm => h k' a' e' (List.mem_cons_of_mem _ hm))
    cases v with
    | arr a2 es0 =>
      simp only [List.map_cons]
      rw [if_neg (h k a2 es0 (List.mem_cons_self _ _)), hrest]
    | str s => simp only [List.map_cons]; rw [hrest]
    | nullv => simp only [List.map_cons]; rw [hrest]

theorem applyMut_of_addr_notin (o : AObj) (m : HMut) (h : m.addr ∉ o.addrs) :
    applyMut o m = o := by
  have hroot : ∀ a, m.addr = a → o.addr ≠ a := by
    intro a haddr hh
    exact h (by simp [AObj.addrs, haddr, hh, List.mem_cons])
  have harr : ∀ k a2 es2, (k, AVal.arr a2 es2) ∈ o.fields → a2 ≠ m.addr := by
    intro k a2 es2 hm hh
    refine h ?_
    simp only [AObj.addrs, List.mem_cons]
    right
    refine List.mem_filterMap.mpr ⟨(k, AVal.arr a2 es2), hm, ?_⟩
    simp [hh]
  cases m with
  | setF a k v =>
    have := hroot a rfl
    simp [applyMut, this]
  | delF a k =>
    have := hroot a rfl
    simp [applyMut, this]
  | setElems a es =>
    simp only [applyMut]
    have := mapElems_id o.fields a es (fun k a2 e2 hm => harr k a2 e2 hm)
    rw [this]

/-- C7: the non-null value returned by `getMappingsIfChanged` is the JSON
round trip of the cached mapping: structurally equal content, and every
mutation targeting an address of the returned value leaves the cached
value unchanged (the copy's addresses are all fresh). -/
theorem C7_cache_copy_independence (o : AObj) :
    returnedMappingsHeap (some (some o)) = some (jsonRoundTrip o) ∧
    (jsonRoundTrip o).readOut = o.readOut ∧
    ∀ m : HMut, m.addr ∈ (jsonRoundTrip o).addrs → applyMut o m = o := by
  refine ⟨rfl, ?_, ?_⟩
  · simp only [AObj.readOut, jsonRoundTrip]
    exact renumberFields_readOut o.fields (o.maxAddr + 2)
  · intro m hm
    have hgt := jsonRoundTrip_addrs_gt o m.addr hm
    refine applyMut_of_addr_notin o m (fun hmem => ?_)
    have := le_foldr_max o.addrs m.addr hmem
    simp only [AObj.maxAddr] at hgt
    omega

def exObj7 : AObj :=
  { addr := 0, fields := [("A", .str "c1"), ("tags", .arr 1 ["c1", "c2"])] }

/-- Witness for C7: the copy of `{A: "c1", tags: ["c1","c2"]}` reads back
equal, and overwriting the copy's array node (fresh address 3) leaves the
cached value untouched. -/
theorem C7_cache_copy_independence_witness :
    (jsonRoundTrip exObj7).readOut = exObj7.readOut
    ∧ applyMut exObj7 (HMut.setElems 3 ["zzz"]) = exObj7 :=
  ⟨(C7_cache_copy_independence exObj7).2.1,
   (C7_cache_copy_independence exObj7).2.2 (HMut.setElems 3 ["zzz"]) (by decide)⟩

/-! ## The `ready()` handshake and the inbound-message gate (C3, C5, C6)

`ready(settings)` (source lines 259–276) performs, synchronously: register
`editOptions` when `settings.onEditOptions` is supplied, then
`rpc.processIncoming()`; and then, in a detached asynchronous block
(`void (async () => ...)()`): `await rpc.sendReadyMessage()` and, when
settings were supplied, build the configure payload (spread `settings`,
add `hasCustomOptions`, delete `onEditOptions`), store `_columnsToMap`,
and `await sectionApi.configure(options).catch(err => console.error(err))`.

The inbound gate itself lives in the RPC collaborator (`grain-rpc`), which
is not part of this repository. Modelled from the spec: messages received
before `processIncoming` are queued and are not dispatched to
widget-registered handlers; `processIncoming` opens the gate, after which
inbound messages are dispatched to handlers. -/

/-- An inbound message; its identity is all the gate model needs. -/
abbrev Msg := Nat

/-- Modelled from the spec: the inbound-gate state of the RPC
collaborator. `delivered` records, in order, the messages dispatched to
widget-registered handlers. -/
structure RpcState where
  gateOpen : Bool
  queue : List Msg
  delivered : List Msg
  registeredFuncs : List String

def rpcInit : RpcState :=
  { gateOpen := false, queue := [], delivered := [], registeredFuncs := [] }

/-- An event of the widget process: an inbound message arriving, or the
synchronous part of a `ready(settings)` call (register the `editOptions`
callable when supplied, then `processIncoming`). -/
inductive WEv where
  | recv (m : Msg)
  | readyCall (settings : Option JRec)

/-- One step: a received message is dispatched when the gate is open and
queued otherwise; the synchronous part of `ready` registers the callback
(when supplied and truthy) and opens the gate. -/
def wstep (s : RpcState) : WEv → RpcState
  | .recv m =>
    if s.gateOpen then { s with delivered := s.delivered ++ [m] }
    else { s with queue := s.queue ++ [m] }
  | .readyCall settings =>
    let s1 :=
      match settings with
      | some st =>
        if truthy (getField st "onEditOptions") then
          { s with registeredFuncs := s.registeredFuncs ++ ["editOptions"] }
        else s
      | none => s
    { s1 with
        gateOpen := true
        delivered := s1.delivered ++ s1.queue
        queue := [] }

def wrun (s : RpcState) (evs : List WEv) : RpcState := evs.foldl wstep s

theorem wrun_recv_closed (msgs : List Msg) (s0 : RpcState)
    (h1 : s0.gateOpen = false) :
    (wrun s0 (msgs.map WEv.recv)).gateOpen = false ∧
    (wrun s0 (msgs.map WEv.recv)).delivered = s0.delivered := by
  induction msgs generalizing s0 with
  | nil => exact ⟨h1, rfl⟩
  | cons mm rest ih =>
    simp only [List.map_cons, wrun, List.foldl_cons]
    have hstep : wstep s0 (.recv mm) = { s0 with queue := s0.queue ++ [mm] } := by
      simp [wstep, h1]
    rw [hstep]
    exact ih _ h1

theorem wstep_recv_open (s2 : RpcState) (m : Msg) (h : s2.gateOpen = true) :
    wstep s2 (.recv m) = { s2 with delivered := s2.delivered ++ [m] } := by
  simp [wstep, h]

/-! ### The action trace of `ready()` -/

/-- The externally observable actions of one `ready(settings)` call, in
execution order. -/
inductive Action where
  | registerFunc (name : String)
  | processIncoming
  | sendReadyMessage
  | setColumnsToMap (cols : JsValue)
  | configure (payload : JRec)
  | logError
deriving Repr

/-- The configure payload built inside `ready`:
`const options = {...settings, hasCustomOptions: Boolean(settings.onEditOptions)}`
followed by `delete options.onEditOptions`. -/
def configOptions (st : JRec) : JRec :=
  deleteField
    (setField st "hasCustomOptions" (.boolv (truthy (getField st "onEditOptions"))))
    "onEditOptions"

/-- The full action trace of one `ready(settings)` call, including its
detached asynchronous continuation, in execution order. `configureFails`
tells whether the host rejects the `configure` call, in which case the
`.catch` handler logs the error. The synchronous prefix ends right after
`processIncoming`; everything from `sendReadyMessage` on runs
asynchronously, and `configure` is awaited only after `sendReadyMessage`
resolves. -/
def readyTrace (settings : Option JRec) (configureFails : Bool) : List Action :=
  (match settings with
   | some st =>
     if truthy (getField st "onEditOptions") then [Action.registerFunc "editOptions"]
     else []
   | none => []) ++
  [Action.processIncoming, Action.sendReadyMessage] ++
  (match settings with
   | some st =>
     Action.setColumnsToMap (getField (configOptions st) "columns")
       :: Action.configure (configOptions st)
       :: (if configureFails then [Action.logError] else [])
   | none => [])

/-! ## C3: no dispatch before ready -/

/-- C3: no inbound message is dispatched to a widget-registered handler
before `ready()` is called (any trace of receives from the initial state
delivers nothing); the synchronous part of `ready` opens the gate, so a
message received right after it is dispatched; and in the action trace of
`ready` the gate flip (`processIncoming`) happens strictly before the
first asynchronous action (`sendReadyMessage`). -/
theorem C3_no_dispatch_before_ready (msgs : List Msg) (s : RpcState)
    (settings : Option JRec) (m : Msg) (fails : Bool) :
    (wrun rpcInit (msgs.map WEv.recv)).delivered = [] ∧
    (wstep s (.readyCall settings)).gateOpen = true ∧
    (wstep (wstep s (.readyCall settings)) (.recv m)).delivered
      = (wstep s (.readyCall settings)).delivered ++ [m] ∧
    ∃ pre post, readyTrace settings fails
        = pre ++ Action.processIncoming :: Action.sendReadyMessage :: post
      ∧ Action.sendReadyMessage ∉ pre := by
  refine ⟨(wrun_recv_closed msgs rpcInit rfl).2, rfl, ?_, ?_⟩
  · rw [wstep_recv_open _ m rfl]
  · cases settings with
    | none => exact ⟨[], [], rfl, by simp⟩
    | some st =>
      by_cases h : truthy (getField st "onEditOptions") = true
      · refine ⟨[Action.registerFunc "editOptions"],
          Action.setColumnsToMap (getField (configOptions st) "columns")
            :: Action.configure (configOptions st)
            :: (if fails then [Action.logError] else []), ?_, by simp⟩
        simp [readyTrace, h]
      · refine ⟨[],
          Action.setColumnsToMap (getField (configOptions st) "columns")
            :: Action.configure (configOptions st)
            :: (if fails then [Action.logError] else []), ?_, by simp⟩
        simp [readyTrace, h]

/-! ## C5: configuration push ordering and shape -/

/-- The configure payload as the specification words it: the supplied
settings with the `onEditOptions` field removed and a `hasCustomOptions`
boolean added that is true exactly when the callback was supplied. -/
def specConfigPayload (st : JRec) : JRec :=
  deleteField st "onEditOptions"
    ++ [("hasCustomOptions", .boolv (truthy (getField st "onEditOptions")))]

theorem setField_of_hasKey_false (r : JRec) (k : String) (v : JsValue)
    (h : hasKey r k = false) : setField r k v = r ++ [(k, v)] := by
  induction r with
  | nil => rfl
  | cons kv rest ih =>
    obtain ⟨k1, v1⟩ := kv
    simp only [hasKey, List.any_cons, Bool.or_eq_false_iff] at h
    simp only [setField, h.1, if_false]
    rw [ih]
    · rfl
    · simpa [hasKey] using h.2

theorem deleteField_append (r1 r2 : JRec) (k : String) :
    deleteField (r1 ++ r2) k = deleteField r1 k ++ deleteField r2 k := by
  simp [deleteField, List.filter_append]

/-- When `settings` does not already carry a `hasCustomOptions` field (the
`ReadyPayload` type omits it), the payload the code builds coincides with
the specification's description. -/
theorem configOptions_eq_spec (st : JRec)
    (hno : hasKey st "hasCustomOptions" = false) :
    configOptions st = specConfigPayload st := by
  unfold configOptions specConfigPayload
  rw [setField_of_hasKey_false st _ _ hno, deleteField_append]
  congr 1

/-- C5: for a `ready(settings)` call, the `editOptions` callable is
registered first — before the ready message is sent — exactly when the
callback was supplied; the `configure` call happens only after
`sendReadyMessage`; and the forwarded payload is the supplied settings
minus `onEditOptions` plus `hasCustomOptions = Boolean(onEditOptions)`. -/
theorem C5_configure_order_and_shape (st : JRec) (fails : Bool)
    (hno : hasKey st "hasCustomOptions" = false) :
    (truthy (getField st "onEditOptions") = true →
      ∃ post, readyTrace (some st) fails
        = Action.registerFunc "editOptions" :: Action.processIncoming
          :: Action.sendReadyMessage
          :: Action.setColumnsToMap (getField (configOptions st) "columns")
          :: Action.configure (specConfigPayload st) :: post) ∧
    (truthy (getField st "onEditOptions") = false →
      ∃ post, readyTrace (some st) fails
        = Action.processIncoming :: Action.sendReadyMessage
          :: Action.setColumnsToMap (getField (configOptions st) "columns")
          :: Action.configure (specConfigPayload st) :: post) := by
  have hpay := configOptions_eq_spec st hno
  constructor
  · intro h
    refine ⟨if fails then [Action.logError] else [], ?_⟩
    simp [readyTrace, h, ← hpay]
  · intro h
    refine ⟨if fails then [Action.logError] else [], ?_⟩
    simp [readyTrace, h, ← hpay]

def exSt5 : JRec := [("columns", .arrv [.strv "Name"]), ("onEditOptions", .funcv)]

/-- Witness for C5, at the scenario of the specification:
`ready({columns: ["Name"], onEditOptions: fn})`. -/
theorem C5_configure_order_and_shape_witness :
    ∃ post, readyTrace (some exSt5) false
      = Action.registerFunc "editOptions" :: Action.processIncoming
        :: Action.sendReadyMessage
        :: Action.setColumnsToMap (getField (configOptions exSt5) "columns")
        :: Action.configure (specConfigPayload exSt5) :: post :=
  (C5_configure_order_and_shape exSt5 false rfl).1 rfl

/-! ## C6: configuration push failure containment -/

/-- Outcome of the host's `configure` endpoint (an external collaborator):
fulfilment, or rejection with an error. -/
def configureResult (fails : Bool) : Except String Unit :=
  if fails then .error "configure rejected" else .ok ()

/-- The detached asynchronous continuation of `ready`: await
`sendReadyMessage`, then, when settings were supplied,
`configure(options).catch(err => console.error(err))`. Returns the
continuation's outcome together with the errors logged by the `.catch`
handler. A rejection of `configure` is consumed by `.catch`, which logs it
and fulfils. -/
def readyAsyncRun (settings : Option JRec) (sendFails configureFails : Bool) :
    Except String Unit × List String :=
  if sendFails then (.error "sendReady failed", [])
  else
    match settings with
    | none => (.ok (), [])
    | some _ =>
      match configureResult configureFails with
      | .ok _ => (.ok (), [])
      | .error e => (.ok (), [e])

/-- C6: when the host rejects the `configure` call made inside `ready()`'s
asynchronous continuation, the rejection is caught at the handshake
boundary and logged, and it is not rethrown: the continuation still
resolves successfully, for every settings value and either outcome of the
configure call — so the widget process is not crashed by that failure. -/
theorem C6_configure_failure_contained (settings : Option JRec)
    (configureFails : Bool) :
    (readyAsyncRun settings false configureFails).1 = .ok () ∧
    (∀ st, settings = some st → configureFails = true →
      (readyAsyncRun settings false configureFails).2 = ["configure rejected"]) := by
  constructor
  · cases settings with
    | none => rfl
    | some st => cases configureFails <;> rfl
  · intro st hs hf
    subst hs
    subst hf
    rfl

/-- Witness for C6: settings supplied and the host rejecting `configure` —
the continuation resolves and the error is logged. -/
theorem C6_configure_failure_contained_witness :
    (readyAsyncRun (some exSt5) false true).1 = .ok ()
    ∧ (readyAsyncRun (some exSt5) false true).2 = ["configure rejected"] :=
  ⟨(C6_configure_failure_contained (some exSt5) true).1,
   (C6_configure_failure_contained (some exSt5) true).2 exSt5 rfl rfl⟩

/-! ## C4: the `onRecord` handler body -/

/-- The handler `onRecord(callback)` registers on the `message` stream
(source lines 182–186): when the notification carries a truthy `tableId`
and a truthy `rowId`, the callback is invoked with the record fetched from
`docApi.fetchSelectedRecord(msg.rowId)` as its first argument and the
result of `getMappingsIfChanged(msg)` as its second; otherwise nothing
happens. The two awaited host responses enter as oracle arguments; the
result is the callback invocation, when one occurs. -/
def onRecordHandler (msg : JRec) (fetched : JRec)
    (mappingsResult : Option WidgetColumnMap) :
    Option (JRec × Option WidgetColumnMap) :=
  if !truthy (getField msg "tableId") || !truthy (getField msg "rowId") then
    none
  else
    some (fetched, mappingsResult)

def exMsg4 : JRec := [("tableId", .strv "T1"), ("rowId", .numv 2)]

def exRec4 : JRec := [("id", .numv 2), ("c1", .strv "x")]

def exMaps4 : WidgetColumnMap := [("A", MapVal.str "c1")]

def exProj4 : JRec := [("id", .numv 2), ("A", .strv "x")]

/-- Counterexample to C4 as stated: on a notification with `tableId` and
`rowId`, with declaration `["A"]` and mapping `{A: "c1"}`, the callback's
first argument is the raw fetched record `{id:2, c1:"x"}`, while the
projection of that record through the mapping is `{id:2, A:"x"}` — the
two differ, so the callback does not receive the projected record. -/
theorem C4_counterexample :
    onRecordHandler exMsg4 exRec4 (some exMaps4) = some (exRec4, some exMaps4)
    ∧ mapColumnNames (.single exRec4) (some [ColSpec.bare "A"]) (some exMaps4)
        = some (.single exProj4)
    ∧ exRec4 ≠ exProj4 :=
  ⟨rfl, rfl, by simp [exRec4, exProj4]⟩

/-- C4 (amended): for every inbound notification carrying a truthy table
id and row id, the handler registered via `onRecord` invokes the callback
with the raw fetched record — not its projection — as first argument,
and the mapping-or-null obtained from `getMappingsIfChanged` as second. -/
theorem C4_record_path_raw (msg fetched : JRec)
    (mres : Option WidgetColumnMap)
    (h1 : truthy (getField msg "tableId") = true)
    (h2 : truthy (getField msg "rowId") = true) :
    onRecordHandler msg fetched mres = some (fetched, mres) := by
  simp [onRecordHandler, h1, h2]

/-- Witness for the amended C4. -/
theorem C4_record_path_raw_witness :
    onRecordHandler exMsg4 exRec4 (some exMaps4) = some (exRec4, some exMaps4) :=
  C4_record_path_raw exMsg4 exRec4 (some exMaps4) rfl rfl

end Grist
